import Mathlib

/-!
Verification development for the rTimelogger event-to-session reconciliation
engine.  The Rust source is shallowly embedded: times are minutes since
midnight (`Nat`), dates are day numbers (`Nat`), the SQLite store is a list of
rows, and fallible operations return the surviving store together with an
optional `AppError`.  All definitions follow the Rust source
(`src/core/calculator/timeline.rs`, `src/core/calculator/expected.rs`,
`src/core/calculator/surplus.rs`, `src/core/logic.rs`, `src/core/add.rs`,
`src/core/del.rs`, `src/db/queries.rs`, `src/db.rs`, `src/commands.rs`).
-/

namespace RTL

/-- `models/event_type.rs`: `enum EventType { In, Out }`. -/
inductive EventType where
  | In : EventType
  | Out : EventType
deriving DecidableEq, Repr

/-- `models/location.rs`: closed set of location codes. -/
inductive Location where
  | Office : Location
  | Remote : Location
  | Holiday : Location
  | OnSite : Location
  | Mixed : Location
deriving DecidableEq, Repr

/-- `models/event.rs`: `struct Event`.  `day` models the `NaiveDate` as an
absolute day number and `time` models the `NaiveTime` as minutes since
midnight, so `timestamp()` ordering is `day * 1440 + time`. -/
structure Event where
  id : Nat
  day : Nat
  time : Nat
  kind : EventType
  location : Location
  lunch : Option Int
  pair : Int
deriving DecidableEq, Repr

/-- `Event::timestamp()` as total minutes (date and time combined). -/
def Event.ts (e : Event) : Nat := e.day * 1440 + e.time

/-- Sorting relation used by `build_timeline`'s `sorted.sort_by_key(|e| e.timestamp())`. -/
def tsLE (a b : Event) : Prop := a.ts ≤ b.ts

instance : DecidableRel tsLE := fun a b => inferInstanceAs (Decidable (a.ts ≤ b.ts))

instance : IsTotal Event tsLE := ⟨fun a b => Nat.le_total a.ts b.ts⟩

instance : IsTrans Event tsLE := ⟨fun _ _ _ h1 h2 => Nat.le_trans h1 h2⟩

/-- Stable sort by timestamp, modelling Rust's stable `sort_by_key`. -/
def sortEvents (l : List Event) : List Event := l.insertionSort tsLE

/-- `timeline.rs`: `struct Pair`. -/
structure Pair where
  in_event : Event
  out_event : Option Event
  duration_minutes : Int
  lunch_minutes : Int
  position : Location
deriving DecidableEq, Repr

/-- `timeline.rs`: `struct Gap` (start/end kept as total minutes). -/
structure Gap where
  gstart : Nat
  gend : Nat
  duration_minutes : Int
  work_gap_flag : Bool
deriving DecidableEq, Repr

/-- `timeline.rs`: `struct Timeline`. -/
structure Timeline where
  events : List Event
  pairs : List Pair
  gaps : List Gap
  total_worked_minutes : Int
deriving DecidableEq, Repr

/-- `in_ev.lunch.unwrap_or(0)`. -/
def lunchOf (e : Event) : Int := e.lunch.getD 0

/-- The pair-building loop of `build_timeline` (`timeline.rs` lines 51-88):
an `In` immediately followed by an `Out` becomes a closed pair consuming both
events; an `In` not followed by an `Out` becomes an open pair with duration 0;
any other event is skipped.  The closed duration is
`(out.timestamp() - in.timestamp()).num_minutes() - in.lunch.unwrap_or(0)`,
with no lower bound applied. -/
def buildPairs : List Event → List Pair
  | [] => []
  | [e] =>
    if e.kind = EventType.In then
      [{ in_event := e, out_event := none, duration_minutes := 0,
         lunch_minutes := lunchOf e, position := e.location }]
    else []
  | e :: o :: rest =>
    if e.kind = EventType.In then
      if o.kind = EventType.Out then
        { in_event := e, out_event := some o,
          duration_minutes := (o.ts : Int) - (e.ts : Int) - lunchOf e,
          lunch_minutes := lunchOf e, position := e.location } :: buildPairs rest
      else
        { in_event := e, out_event := none, duration_minutes := 0,
          lunch_minutes := lunchOf e, position := e.location } :: buildPairs (o :: rest)
    else buildPairs (o :: rest)

/-- The gap loop of `build_timeline`: for each adjacent pair of pairs, when the
earlier one is closed and the later `In` starts strictly afterwards, a
non-working gap is recorded. -/
def buildGaps : List Pair → List Gap
  | p1 :: p2 :: rest =>
    (match p1.out_event with
     | some o1 =>
       if p2.in_event.ts > o1.ts then
         [{ gstart := o1.ts, gend := p2.in_event.ts,
            duration_minutes := (p2.in_event.ts : Int) - (o1.ts : Int),
            work_gap_flag := false }]
       else []
     | none => []) ++ buildGaps (p2 :: rest)
  | _ => []

/-- Total of the accumulated durations.  The Rust loop adds `duration` only
when it closes a pair; open pairs carry `duration_minutes = 0`, so summing
over all pairs is the same accumulator value. -/
def sumDurations (ps : List Pair) : Int := (ps.map (·.duration_minutes)).sum

/-- `timeline.rs` `build_timeline`: sort chronologically, build pairs,
then gaps; empty input gives the default (empty) timeline. -/
def build_timeline (events : List Event) : Timeline :=
  if events.isEmpty then
    { events := [], pairs := [], gaps := [], total_worked_minutes := 0 }
  else
    let sorted := sortEvents events
    { events := sorted
      pairs := buildPairs sorted
      gaps := buildGaps (buildPairs sorted)
      total_worked_minutes := sumDurations (buildPairs sorted) }

example :
    (build_timeline
      [{ id := 1, day := 0, time := 540, kind := .In, location := .Office,
         lunch := some 30, pair := 0 },
       { id := 2, day := 0, time := 550, kind := .Out, location := .Office,
         lunch := some 0, pair := 0 }]).pairs.map (·.duration_minutes) = [-20] := by
  decide

/-! ## Duration-string and lunch-window parsing (`core/logic.rs`, `utils/time.rs`)

Strings are modelled as lists of characters; `str::trim` is ASCII-whitespace
trimming and `str::parse::<i64>` accepts an optional sign followed by digits,
within the `i64` range. -/

/-- ASCII whitespace, as trimmed by `str::trim` on the inputs of interest. -/
def isWS (c : Char) : Bool := c = ' ' ∨ c = '\t' ∨ c = '\n' ∨ c = '\r'

/-- `str::trim`. -/
def trimChars (l : List Char) : List Char :=
  ((l.dropWhile isWS).reverse.dropWhile isWS).reverse

/-- Digit-sequence value; `none` when empty or a non-digit appears. -/
def digitsToNat : List Char → Option Nat
  | [] => none
  | [c] => if c.isDigit then some (c.toNat - '0'.toNat) else none
  | c :: rest =>
    if c.isDigit then
      (digitsToNat rest).map (fun n => (c.toNat - '0'.toNat) * 10 ^ rest.length + n)
    else none

/-- `str::parse::<i64>`: optional sign, digits only, `i64` range. -/
def parseI64 (l : List Char) : Option Int :=
  match l with
  | [] => none
  | '+' :: rest =>
    (digitsToNat rest).bind fun n =>
      if (n : Int) ≤ 2 ^ 63 - 1 then some (n : Int) else none
  | '-' :: rest =>
    (digitsToNat rest).bind fun n =>
      if (n : Int) ≤ 2 ^ 63 then some (-(n : Int)) else none
  | _ =>
    (digitsToNat l).bind fun n =>
      if (n : Int) ≤ 2 ^ 63 - 1 then some (n : Int) else none

/-- `str::find(char)`: index of the first occurrence. -/
def findChar (c : Char) : List Char → Option Nat
  | [] => none
  | x :: xs => if x = c then some 0 else (findChar c xs).map (· + 1)

/-- `core/logic.rs` `Core::parse_work_duration_to_minutes`: formats `"8h"`,
`"7h 36m"`, `"HH:MM"`, bare integer (hours); an unparseable hour part defaults
to 8, an unparseable minute part to 0, and anything else to 480. -/
def parse_work_duration_to_minutes (s0 : List Char) : Int :=
  let s := trimChars s0
  if s = [] then 480
  else
    match findChar 'h' s with
    | some hpos =>
      let hours := (parseI64 (trimChars (s.take hpos))).getD 8
      let rest := trimChars (s.drop (hpos + 1))
      let minutes : Int :=
        if rest = [] then 0
        else
          let restNoM :=
            match findChar 'm' rest with
            | some mpos => trimChars (rest.take mpos)
            | none => rest
          if restNoM = [] then 0 else (parseI64 restNoM).getD 0
      hours * 60 + minutes
    | none =>
      match findChar ':' s with
      | some cpos =>
        let hours := (parseI64 (trimChars (s.take cpos))).getD 8
        let minutes := (parseI64 (trimChars (s.drop (cpos + 1)))).getD 0
        hours * 60 + minutes
      | none =>
        match parseI64 s with
        | some h => h * 60
        | none => 480

example : parse_work_duration_to_minutes "8h".data = 480 := by decide
example : parse_work_duration_to_minutes "7h 36m".data = 456 := by decide
example : parse_work_duration_to_minutes "07:30".data = 450 := by decide
example : parse_work_duration_to_minutes "9".data = 540 := by decide
example : parse_work_duration_to_minutes "x:30".data = 510 := by decide
example : parse_work_duration_to_minutes "".data = 480 := by decide
example : parse_work_duration_to_minutes "bogus".data = 480 := by decide

/-- `NaiveTime::parse_from_str(s, "%H:%M")`, as minutes since midnight:
one or two digit fields, hour below 24, minute below 60. -/
def parseHHMM (l0 : List Char) : Option Nat :=
  let l := l0
  match findChar ':' l with
  | some cpos =>
    (digitsToNat (l.take cpos)).bind fun h =>
      (digitsToNat (l.drop (cpos + 1))).bind fun m =>
        if cpos ≤ 2 ∧ (l.drop (cpos + 1)).length ≤ 2 ∧ h < 24 ∧ m < 60 then
          some (h * 60 + m)
        else none
  | none => none

/-- `utils/time.rs` `parse_lunch_window`: `"HH:MM-HH:MM"` split once on `-`,
both halves trimmed and parsed as times. -/
def parse_lunch_window (s : List Char) : Option (Nat × Nat) :=
  match findChar '-' s with
  | some dpos =>
    (parseHHMM (trimChars (s.take dpos))).bind fun a =>
      (parseHHMM (trimChars (s.drop (dpos + 1)))).map fun b => (a, b)
  | none => none

example : parse_lunch_window "12:30-14:00".data = some (750, 840) := by decide

/-- `config/mod.rs` `Config`, restricted to the fields the calculator reads. -/
structure Config where
  min_work_duration : List Char
  lunch_window : List Char
  min_duration_lunch_break : Int
deriving DecidableEq

/-- `core/calculator/expected.rs` `calculate_expected`: zero for an empty
timeline; otherwise quota plus the first pair's lunch, where a zero lunch is
replaced by the configured minimum when the first In time is at or before the
lunch-window end. -/
def calculate_expected (tl : Timeline) (cfg : Config) : Int :=
  match tl.pairs with
  | [] => 0
  | first_pair :: _ =>
    let work_minutes := parse_work_duration_to_minutes cfg.min_work_duration
    let lunch := first_pair.lunch_minutes
    let lunch :=
      if lunch = 0 then
        match parse_lunch_window cfg.lunch_window with
        | some (_, win_end) =>
          if first_pair.in_event.time ≤ win_end then cfg.min_duration_lunch_break
          else lunch
        | none => lunch
      else lunch
    work_minutes + lunch

/-- `core/calculator/surplus.rs` `calculate_surplus`. -/
def calculate_surplus (tl : Timeline) (expected : Int) : Int :=
  tl.total_worked_minutes - expected

/-! ## Error taxonomy (`errors.rs`), restricted to the variants used here. -/

/-- `errors.rs` `AppError` (structured payloads in place of formatted
message strings; `invalidTime` carries the offending date and time). -/
inductive AppError where
  | invalidTime (day : Nat) (time : Nat) : AppError
  | noEventsForDate (day : Nat) : AppError
  | invalidPair (p : Nat) : AppError
deriving DecidableEq, Repr

/-- Classifier for `AppError::InvalidTime`-class failures. -/
def AppError.isInvalidTime : AppError → Bool
  | .invalidTime _ _ => true
  | _ => false

/-! ## Strict recalculation (`db/queries.rs` `recalc_pairs_for_date`)

The store is the list of persisted event rows.  `recalc_pairs_for_date` loads
the date's rows ordered by time, then scans them enforcing strict alternation,
issuing one `UPDATE events SET pair = ...` per accepted event.  There is no
transaction around the scan: updates issued before a failure persist, and the
function returns the store as modified so far together with the error. -/

/-- `ORDER BY time ASC` on a single date's rows; SQLite returns ties in rowid
(insertion) order, hence a stable sort on the filtered store order. -/
def timeLE (a b : Event) : Prop := a.time ≤ b.time

instance : DecidableRel timeLE := fun a b => inferInstanceAs (Decidable (a.time ≤ b.time))

instance : IsTotal Event timeLE := ⟨fun a b => Nat.le_total a.time b.time⟩

instance : IsTrans Event timeLE := ⟨fun _ _ _ h1 h2 => Nat.le_trans h1 h2⟩

/-- Stable sort by time (for date-scoped `ORDER BY time ASC` queries). -/
def sortByTime (l : List Event) : List Event := l.insertionSort timeLE

/-- `UPDATE events SET pair = ?1 WHERE id = ?2`. -/
def updatePair (store : List Event) (i : Nat) (p : Int) : List Event :=
  store.map fun e => if e.id = i then { e with pair := p } else e

/-- The strict scan of `recalc_pairs_for_date`: `current_pair` starts at 1,
`open_in` holds the id of the last In without an Out.  An In while `open_in`
is set, or an Out while it is empty, aborts with an `InvalidTime` error. -/
def recalcScan (store : List Event) (evs : List Event) (current_pair : Int)
    (open_in : Option Nat) : List Event × Option AppError :=
  match evs with
  | [] => (store, none)
  | ev :: rest =>
    match ev.kind with
    | .In =>
      match open_in with
      | some _ => (store, some (AppError.invalidTime ev.day ev.time))
      | none =>
        recalcScan (updatePair store ev.id current_pair) rest current_pair (some ev.id)
    | .Out =>
      match open_in with
      | none => (store, some (AppError.invalidTime ev.day ev.time))
      | some _ =>
        recalcScan (updatePair store ev.id current_pair) rest (current_pair + 1) none

/-- `db/queries.rs` `load_events_by_date`:
`SELECT * FROM events WHERE date = ?1 ORDER BY time ASC` (ties in rowid,
i.e. store, order). -/
def load_events_by_date (store : List Event) (day : Nat) : List Event :=
  sortByTime (store.filter fun e => e.day = day)

/-- `db/queries.rs` `recalc_pairs_for_date`: load the date's events ordered by
time, return unchanged when there are none, otherwise run the strict scan. -/
def recalc_pairs_for_date (store : List Event) (day : Nat) :
    List Event × Option AppError :=
  let evs := load_events_by_date store day
  if evs.isEmpty then (store, none)
  else recalcScan store evs 1 none

/-! ## Add path (`core/add.rs` `AddLogic::apply`, start-only branch)

`AddLogic::apply` with only a start time inserts a fresh In row and then calls
`recalc_pairs_for_date` on the same un-wrapped connection (lines 183-206):
there is no enclosing transaction, so the insert persists even when the
recalculation fails. -/

/-- Fresh autoincrement row id. -/
def freshId (store : List Event) : Nat :=
  (store.map (·.id)).foldr max 0 + 1

/-- `insert_event` (`db/queries.rs`): append the row with a store-assigned id. -/
def insert_event (store : List Event) (e : Event) : List Event :=
  store ++ [{ e with id := freshId store }]

/-- `core/add.rs` lines 183-206 (`start` given, `end` absent): build the In
event (`pair = 0`, lunch as given), insert it, then recalculate the date's
pairs.  The returned store reflects every write performed before any error. -/
def addLogic_apply_start (store : List Event) (day : Nat) (position : Location)
    (start : Nat) (lunch_val : Int) : List Event × Option AppError :=
  let ev : Event :=
    { id := 0, day := day, time := start, kind := .In, location := position,
      lunch := some lunch_val, pair := 0 }
  recalc_pairs_for_date (insert_event store ev) day

example :
    (addLogic_apply_start
      [{ id := 1, day := 7, time := 540, kind := .In, location := .Office,
         lunch := some 0, pair := 1 }] 7 .Office 600 0).2 =
      some (AppError.invalidTime 7 600) := by decide

example :
    ((addLogic_apply_start
      [{ id := 1, day := 7, time := 540, kind := .In, location := .Office,
         lunch := some 0, pair := 1 }] 7 .Office 600 0).1).length = 2 := by decide

/-! ## Deletion entry point (`core/del.rs` `DeleteLogic::apply`)

Wired to the current dispatcher through `cli/commands/del.rs`.  With a pair
argument `p` it takes `events.chunks(2).nth(p - 1)` of the time-ordered list
and deletes those rows by id; there is no pair reconstruction and no
recalculation afterwards.  (The CLI supplies `p ≥ 1`; `p = 0` would underflow
the `usize` subtraction in Rust.) -/

/-- `events.chunks(2).nth(idx)` (0-based), `none` past the end. -/
def chunk2 (l : List Event) (idx : Nat) : Option (List Event) :=
  if 2 * idx < l.length then some ((l.drop (2 * idx)).take 2) else none

/-- `core/del.rs` `DeleteLogic::apply` for `pair = some p`: load the date's
events ordered by time; `NoEventsForDate` when empty; delete the `(p-1)`-th
2-chunk, or `InvalidPair p` when it does not exist.  Returns the surviving
store. -/
def deleteLogic_apply (store : List Event) (day : Nat) (p : Nat) :
    Except AppError (List Event) :=
  let events := load_events_by_date store day
  if events.isEmpty then .error (AppError.noEventsForDate day)
  else
    match chunk2 events (p - 1) with
    | none => .error (AppError.invalidPair p)
    | some pair_events =>
      .ok (store.filter fun e => ¬ (pair_events.map (·.id)).contains e.id)

/-! ## Legacy read-path model (`commands.rs`, `db.rs`)

`commands.rs` works on the legacy `db::Event` rows whose `kind` is a raw
string; dates are again day numbers and times minutes since midnight (the
`"HH:MM"` strings compare lexicographically exactly as the minute values
do). -/

/-- `db.rs` legacy `Event` row (fields relevant to pairing and the
day-aggregate recomputation). -/
structure LEvent where
  id : Nat
  date : Nat
  time : Nat
  kind : String
  position : String
  lunch_break : Int
deriving DecidableEq, Repr

/-- `commands.rs` `EventWithPair`: an event annotated with its computed pair
id and unmatched flag. -/
structure EventWithPair where
  ev : LEvent
  pair : Nat
  unmatched : Bool
deriving DecidableEq, Repr

/-- `result[in_idx].unmatched = false`. -/
def closeAt : List EventWithPair → Nat → List EventWithPair
  | [], _ => []
  | x :: xs, 0 => { x with unmatched := false } :: xs
  | x :: xs, n + 1 => x :: closeAt xs n

/-- `result[in_idx].pair` (indices produced by the loop are always valid). -/
def pairAt (l : List EventWithPair) (i : Nat) : Nat :=
  ((l.get? i).map (·.pair)).getD 0

/-- The loop body of `commands.rs` `compute_event_pairs`: `cur` is
`current_date` (initially unset), `q` the FIFO queue of open-In result
indices, `c` the per-date pair counter.  A date change resets queue and
counter. -/
def cepGo (res : List EventWithPair) (cur : Option Nat) (q : List Nat) (c : Nat) :
    List LEvent → List EventWithPair
  | [] => res
  | ev :: rest =>
    let q := if cur = some ev.date then q else []
    let c := if cur = some ev.date then c else 0
    if ev.kind = "in" then
      cepGo (res ++ [{ ev := ev, pair := c + 1, unmatched := true }])
        (some ev.date) (q ++ [res.length]) (c + 1) rest
    else if ev.kind = "out" then
      match q with
      | in_idx :: qrest =>
        cepGo (closeAt res in_idx ++
            [{ ev := ev, pair := pairAt res in_idx, unmatched := false }])
          (some ev.date) qrest c rest
      | [] =>
        cepGo (res ++ [{ ev := ev, pair := c + 1, unmatched := true }])
          (some ev.date) [] (c + 1) rest
    else
      cepGo (res ++ [{ ev := ev, pair := c + 1, unmatched := true }])
        (some ev.date) q (c + 1) rest

/-- `commands.rs` `compute_event_pairs` (lenient FIFO pairing over a slice of
events in the order given). -/
def compute_event_pairs (events : List LEvent) : List EventWithPair :=
  cepGo [] none [] 0 events

/-- The spec-level `assign_pairs` interface: events re-sorted by time (stable,
as `ORDER BY date, time` with rowid tie-break) before pairing. -/
def dtLE (a b : LEvent) : Prop :=
  a.date < b.date ∨ (a.date = b.date ∧ a.time ≤ b.time)

instance : DecidableRel dtLE := fun a b =>
  inferInstanceAs (Decidable (a.date < b.date ∨ (a.date = b.date ∧ a.time ≤ b.time)))

instance : IsTotal LEvent dtLE where
  total a b := by
    rcases Nat.lt_trichotomy a.date b.date with h | h | h
    · exact Or.inl (Or.inl h)
    · rcases Nat.le_total a.time b.time with ht | ht
      · exact Or.inl (Or.inr ⟨h, ht⟩)
      · exact Or.inr (Or.inr ⟨h.symm, ht⟩)
    · exact Or.inr (Or.inl h)

instance : IsTrans LEvent dtLE where
  trans a b c hab hbc := by
    rcases hab with h1 | ⟨e1, t1⟩
    · rcases hbc with h2 | ⟨e2, t2⟩
      · exact Or.inl (Nat.lt_trans h1 h2)
      · exact Or.inl (e2 ▸ h1)
    · rcases hbc with h2 | ⟨e2, t2⟩
      · exact Or.inl (e1 ▸ h2)
      · exact Or.inr ⟨e1.trans e2, Nat.le_trans t1 t2⟩

/-- Stable sort by (date, time). -/
def sortLEvents (l : List LEvent) : List LEvent := l.insertionSort dtLE

/-- `assign_pairs`: internal re-sort by time, then the lenient pairing. -/
def assign_pairs (events : List LEvent) : List EventWithPair :=
  compute_event_pairs (sortLEvents events)

/-- The (pair, unmatched) annotation `assign_pairs` gives the event with a
given id. -/
def annotOf (res : List EventWithPair) (i : Nat) : Option (Nat × Bool) :=
  (res.find? fun x => x.ev.id = i).map fun x => (x.pair, x.unmatched)

example :
    (compute_event_pairs
      [{ id := 1, date := 0, time := 540, kind := "in", position := "O", lunch_break := 0 },
       { id := 2, date := 0, time := 600, kind := "in", position := "O", lunch_break := 0 },
       { id := 3, date := 0, time := 660, kind := "out", position := "O", lunch_break := 0 }]).map
        (fun x => (x.pair, x.unmatched)) = [(1, false), (2, true), (1, false)] := by
  decide

example :
    (compute_event_pairs
      [{ id := 1, date := 0, time := 1020, kind := "out", position := "O", lunch_break := 0 }]).map
        (fun x => (x.pair, x.unmatched)) = [(1, true)] := by
  decide

example :
    annotOf (assign_pairs
      [{ id := 1, date := 0, time := 540, kind := "in", position := "O", lunch_break := 0 },
       { id := 2, date := 0, time := 540, kind := "out", position := "O", lunch_break := 0 }]) 1 =
      some (1, false) := by decide

example :
    annotOf (assign_pairs
      [{ id := 2, date := 0, time := 540, kind := "out", position := "O", lunch_break := 0 },
       { id := 1, date := 0, time := 540, kind := "in", position := "O", lunch_break := 0 }]) 1 =
      some (2, true) := by decide

/-! ## Day-aggregate recomputation after deletion
(`db.rs` `delete_events_by_ids_and_recompute_sessions`)

The `work_sessions` table holds at most one denormalized row per date; the
function deletes the given event ids inside one transaction, then recomputes
that row from the surviving events of the date: `end_time` from the maximum
surviving time, `start_time` from the earliest surviving `in` (falling back to
the earliest event), `lunch_break` from the latest surviving `out`, and
`position` only when exactly one distinct position survives.  When nothing
survives, the row is deleted. -/

/-- A `work_sessions` row. -/
structure WorkSession where
  date : Nat
  position : String
  start_time : Option Nat
  end_time : Option Nat
  lunch_break : Int
deriving DecidableEq, Repr

/-- `Iterator::max` over times. -/
def listMax : List Nat → Option Nat
  | [] => none
  | x :: xs =>
    some (match listMax xs with
          | none => x
          | some m => max x m)

/-- `Iterator::min` over times. -/
def listMin : List Nat → Option Nat
  | [] => none
  | x :: xs =>
    some (match listMin xs with
          | none => x
          | some m => min x m)

/-- `max_by(|a, b| a.time.cmp(&b.time))`: the last element of maximal time. -/
def maxByTime : List LEvent → Option LEvent
  | [] => none
  | x :: xs =>
    some (match maxByTime xs with
          | none => x
          | some m => if m.time < x.time then x else m)

/-- `UPDATE work_sessions SET end_time ... ; if changed == 0 INSERT`. -/
def upsertEnd (sess : Option WorkSession) (d : Nat) (t : Nat) : Option WorkSession :=
  match sess with
  | some w => some { w with end_time := some t }
  | none => some { date := d, position := "O", start_time := none,
                   end_time := some t, lunch_break := 0 }

/-- `UPDATE work_sessions SET start_time ... ; if changed == 0 INSERT`. -/
def upsertStart (sess : Option WorkSession) (d : Nat) (t : Nat) : Option WorkSession :=
  match sess with
  | some w => some { w with start_time := some t }
  | none => some { date := d, position := "O", start_time := some t,
                   end_time := none, lunch_break := 0 }

/-- `UPDATE work_sessions SET lunch_break ... ; if changed == 0 INSERT`. -/
def upsertLunch (sess : Option WorkSession) (d : Nat) (v : Int) : Option WorkSession :=
  match sess with
  | some w => some { w with lunch_break := v }
  | none => some { date := d, position := "O", start_time := none,
                   end_time := none, lunch_break := v }

/-- `UPDATE work_sessions SET position ... ; if changed == 0 INSERT`. -/
def upsertPos (sess : Option WorkSession) (d : Nat) (p : String) : Option WorkSession :=
  match sess with
  | some w => some { w with position := p }
  | none => some { date := d, position := p, start_time := none,
                   end_time := none, lunch_break := 0 }

/-- `db.rs` `delete_events_by_ids_and_recompute_sessions`.  `events` is the
whole `events` table, `sess` the `work_sessions` row for `d` (if any).  The
function deletes `ids`, reloads the date's survivors ordered by time, and
updates the aggregates in source order: end, start, lunch, position. -/
def deleteByIds (events : List LEvent) (ids : List Nat) : List LEvent :=
  events.filter fun e => ¬ ids.contains e.id

/-- The date's events surviving the deletion, ordered by time
(the `SELECT ... WHERE date = ?1 ORDER BY time ASC` inside the transaction). -/
def survivingEvents (events : List LEvent) (ids : List Nat) (d : Nat) : List LEvent :=
  sortLEvents ((deleteByIds events ids).filter fun e => e.date = d)

/-- First UPDATE block: `end_time` from the maximum surviving time. -/
def endStep (sess : Option WorkSession) (d : Nat) (remaining : List LEvent) :
    Option WorkSession :=
  match listMax (remaining.map (·.time)) with
  | some mx => upsertEnd sess d mx
  | none => sess

/-- Second UPDATE block: `start_time` from the earliest surviving `in`,
falling back to the earliest surviving event. -/
def startStep (sess : Option WorkSession) (d : Nat) (remaining : List LEvent) :
    Option WorkSession :=
  match (match listMin ((remaining.filter fun e => e.kind = "in").map (·.time)) with
         | some mn => some mn
         | none => listMin (remaining.map (·.time))) with
  | some mn => upsertStart sess d mn
  | none => sess

/-- Third UPDATE block: `lunch_break` from the latest surviving `out`. -/
def lunchStep (sess : Option WorkSession) (d : Nat) (remaining : List LEvent) :
    Option WorkSession :=
  match maxByTime (remaining.filter fun e => e.kind = "out") with
  | some o => upsertLunch sess d o.lunch_break
  | none => sess

/-- Fourth UPDATE block: `position` only when exactly one distinct position
survives (`COUNT(DISTINCT position) = 1`). -/
def posStep (sess : Option WorkSession) (d : Nat) (remaining : List LEvent) :
    Option WorkSession :=
  match (remaining.map (·.position)).dedup with
  | [p] => upsertPos sess d p
  | _ => sess

/-- The aggregate-recomputation pipeline run on the surviving events of the
date, in source order: end, start, lunch, position. -/
def recompute_session_fields (sess : Option WorkSession) (d : Nat)
    (remaining : List LEvent) : Option WorkSession :=
  posStep (lunchStep (startStep (endStep sess d remaining) d remaining) d remaining)
    d remaining

def delete_events_by_ids_and_recompute_sessions (events : List LEvent)
    (sess : Option WorkSession) (ids : List Nat) (d : Nat) :
    List LEvent × Option WorkSession :=
  if ids.isEmpty then (events, sess)
  else
    let events' := deleteByIds events ids
    let remaining := survivingEvents events ids d
    if remaining.isEmpty then
      (events', none)
    else
      (events', recompute_session_fields sess d remaining)

example :
    (delete_events_by_ids_and_recompute_sessions
      [{ id := 1, date := 3, time := 480, kind := "out", position := "R", lunch_break := 0 },
       { id := 2, date := 3, time := 540, kind := "in", position := "R", lunch_break := 0 },
       { id := 3, date := 3, time := 1020, kind := "out", position := "R", lunch_break := 30 }]
      (some { date := 3, position := "R", start_time := some 300,
              end_time := some 900, lunch_break := 10 })
      [3] 3).2 =
      some { date := 3, position := "R", start_time := some 540,
             end_time := some 540, lunch_break := 0 } := by decide

/-! ## Lemmas about the timeline builder -/

theorem sortEvents_sorted (l : List Event) : (sortEvents l).Sorted tsLE :=
  List.sorted_insertionSort tsLE l

theorem sortEvents_perm (l : List Event) : List.Perm (sortEvents l) l :=
  List.perm_insertionSort tsLE l

/-- On a sorted, lunch-free slice every pair the builder constructs has a
nonnegative duration: closed pairs because the `Out` is the next event in
sorted order, open pairs because their duration is literally `0`. -/
theorem buildPairs_duration_nonneg :
    ∀ l : List Event, l.Sorted tsLE → (∀ e ∈ l, lunchOf e = 0) →
      ∀ p ∈ buildPairs l, 0 ≤ p.duration_minutes
  | [], _, _, p, hp => by simp [buildPairs] at hp
  | [e], _, hl, p, hp => by
    simp only [buildPairs] at hp
    split at hp
    · rcases List.mem_singleton.mp hp with rfl
      simp
    · simp at hp
  | e :: o :: rest, hs, hl, p, hp => by
    simp only [buildPairs] at hp
    split at hp
    · split at hp
      · rcases List.mem_cons.mp hp with rfl | hp'
        · have hle : e.ts ≤ o.ts :=
            List.rel_of_sorted_cons hs o (List.mem_cons_self o rest)
          have hlunch : lunchOf e = 0 := hl e (List.mem_cons_self e (o :: rest))
          simp only [hlunch]
          omega
        · exact buildPairs_duration_nonneg rest hs.tail.tail
            (fun x hx => hl x (List.mem_cons_of_mem e (List.mem_cons_of_mem o hx)))
            p hp'
      · rcases List.mem_cons.mp hp with rfl | hp'
        · simp
        · exact buildPairs_duration_nonneg (o :: rest) hs.tail
            (fun x hx => hl x (List.mem_cons_of_mem e hx)) p hp'
    · exact buildPairs_duration_nonneg (o :: rest) hs.tail
        (fun x hx => hl x (List.mem_cons_of_mem e hx)) p hp

/-- C4 counterexample event list: a pair spanning ten minutes whose `In`
records a 30-minute lunch. -/
def c4Events : List Event :=
  [{ id := 1, day := 0, time := 540, kind := .In, location := .Office,
     lunch := some 30, pair := 0 },
   { id := 2, day := 0, time := 550, kind := .Out, location := .Office,
     lunch := some 0, pair := 0 }]

/-- C4: the claim "every Pair produced by the Timeline Builder has
`duration_minutes ≥ 0`" is false: `In@09:00` with lunch 30 followed by
`Out@09:10` yields a pair of duration `-20`; no flooring at zero exists in
`build_timeline`. -/
theorem c4_duration_nonneg_counterexample :
    (build_timeline c4Events).pairs.map (·.duration_minutes) = [-20] ∧
      ¬ ∀ p ∈ (build_timeline c4Events).pairs, 0 ≤ p.duration_minutes := by
  constructor
  · decide
  · decide

/-- C4 (amended): a closed pair's duration is
`(out.time - in.time) - in.lunch` with no lower bound, so it can be negative
when the lunch exceeds the elapsed span; whenever every event carries zero
lunch minutes, all durations produced by `build_timeline` are nonnegative
(open pairs always have duration `0`). -/
theorem c4_duration_nonneg_amended (events : List Event)
    (h : ∀ e ∈ events, lunchOf e = 0) :
    ∀ p ∈ (build_timeline events).pairs, 0 ≤ p.duration_minutes := by
  unfold build_timeline
  split
  · intro p hp
    simp at hp
  · intro p hp
    refine buildPairs_duration_nonneg (sortEvents events) (sortEvents_sorted events)
      (fun e he => h e ?_) p hp
    exact (sortEvents_perm events).mem_iff.mp he

/-- C4 witness events: a lunch-free closed day. -/
def c4wEvents : List Event :=
  [{ id := 1, day := 0, time := 540, kind := .In, location := .Office,
     lunch := some 0, pair := 0 },
   { id := 2, day := 0, time := 1020, kind := .Out, location := .Office,
     lunch := some 0, pair := 0 }]

/-- The single pair built from `c4wEvents`. -/
def c4wPair : Pair :=
  { in_event := { id := 1, day := 0, time := 540, kind := .In,
                  location := .Office, lunch := some 0, pair := 0 },
    out_event := some { id := 2, day := 0, time := 1020, kind := .Out,
                        location := .Office, lunch := some 0, pair := 0 },
    duration_minutes := 480, lunch_minutes := 0, position := .Office }

/-- C4 witness: the amended theorem applied to a concrete lunch-free day. -/
theorem c4_duration_nonneg_witness :
    (build_timeline c4wEvents).pairs = [c4wPair] ∧ 0 ≤ c4wPair.duration_minutes :=
  ⟨by decide, c4_duration_nonneg_amended c4wEvents (by decide) c4wPair (by decide)⟩

/-- C8: the claim that every input matching none of the four formats yields
480 is false: `"x:30"` matches none of them (its hour part is not an
integer), yet the parser returns `8 * 60 + 30 = 510`, because a malformed
hour part inside the `HH:MM` branch defaults to 8 on its own. -/
theorem c8_parse_duration_counterexample :
    parse_work_duration_to_minutes "x:30".data = 510 ∧ (510 : Int) ≠ 480 := by
  constructor
  · decide
  · decide

/-- C8 (amended): the parser accepts `"8h"`, `"7h 36m"`, `"HH:MM"` and bare
integers-as-hours, and never fails; but the 480-minute fallback applies
exactly to inputs containing neither `'h'` nor `':'` that do not parse as an
integer — inputs containing `'h'` or `':'` instead default their unparseable
hour part to 8 and minute part to 0 component-wise. -/
theorem c8_parse_duration_amended :
    (parse_work_duration_to_minutes "8h".data = 480 ∧
     parse_work_duration_to_minutes "7h 36m".data = 456 ∧
     parse_work_duration_to_minutes "07:30".data = 450 ∧
     parse_work_duration_to_minutes "9".data = 540) ∧
    ∀ s0 : List Char,
      findChar 'h' (trimChars s0) = none →
      findChar ':' (trimChars s0) = none →
      parseI64 (trimChars s0) = none →
      parse_work_duration_to_minutes s0 = 480 := by
  refine ⟨⟨by decide, by decide, by decide, by decide⟩, ?_⟩
  intro s0 h1 h2 h3
  simp only [parse_work_duration_to_minutes, h1, h2, h3]
  split <;> rfl

/-- C8 witness: the fallback branch of the amended theorem at `"bogus"`. -/
theorem c8_parse_duration_witness :
    parse_work_duration_to_minutes "bogus".data = 480 :=
  c8_parse_duration_amended.2 "bogus".data (by decide) (by decide) (by decide)

/-! ## Lemmas about the lenient pairing -/

theorem closeAt_map_ev : ∀ (l : List EventWithPair) (i : Nat),
    (closeAt l i).map (·.ev) = l.map (·.ev)
  | [], _ => rfl
  | _ :: _, 0 => rfl
  | x :: xs, n + 1 => by simp [closeAt, closeAt_map_ev xs n]

/-- Every event of the input slice comes back annotated, in order: the loop
appends exactly one `EventWithPair` per input event and closing a pair never
changes the stored events. -/
theorem cepGo_map_ev : ∀ (evs : List LEvent) (res : List EventWithPair)
    (cur : Option Nat) (q : List Nat) (c : Nat),
    (cepGo res cur q c evs).map (·.ev) = res.map (·.ev) ++ evs
  | [], res, cur, q, c => by simp [cepGo]
  | ev :: rest, res, cur, q, c => by
    simp only [cepGo]
    split
    · rw [cepGo_map_ev rest]
      simp
    · split
      · split
        · rw [cepGo_map_ev rest]
          simp [closeAt_map_ev]
        · rw [cepGo_map_ev rest]
          simp
      · rw [cepGo_map_ev rest]
        simp

/-- C2: the lenient pairing is FIFO with orphan tolerance.  For
`In@09:00, In@10:00, Out@11:00` the `Out` closes the `In@09:00` pair (pair 1,
both flipped to matched) and `In@10:00` stays open as unmatched pair 2; a lone
`Out@17:00` becomes one fresh unmatched pair with no error; and in general the
function totally annotates every input event in order (no failure path
exists). -/
theorem c2_lenient_fifo :
    ((compute_event_pairs
      [{ id := 1, date := 0, time := 540, kind := "in", position := "O", lunch_break := 0 },
       { id := 2, date := 0, time := 600, kind := "in", position := "O", lunch_break := 0 },
       { id := 3, date := 0, time := 660, kind := "out", position := "O", lunch_break := 0 }]).map
        (fun x => (x.ev.id, x.pair, x.unmatched)) =
        [(1, 1, false), (2, 2, true), (3, 1, false)]) ∧
    ((compute_event_pairs
      [{ id := 1, date := 0, time := 1020, kind := "out", position := "O",
         lunch_break := 0 }]).map (fun x => (x.pair, x.unmatched)) = [(1, true)]) ∧
    ∀ events : List LEvent, (compute_event_pairs events).map (·.ev) = events := by
  refine ⟨by decide, by decide, ?_⟩
  intro events
  simpa using cepGo_map_ev events [] none [] 0

/-! ## Lemmas about the strict recalculation -/

/-- The day sequences the strict variant accepts, as a grammar independent of
the scan: closed `In Out` blocks, optionally ending in one open `In`. -/
inductive StrictSeq : List EventType → Prop where
  | nil : StrictSeq []
  | single : StrictSeq [EventType.In]
  | pair (rest : List EventType) : StrictSeq rest →
      StrictSeq (EventType.In :: EventType.Out :: rest)

/-- Boolean acceptance of the strict scan, keyed on whether an In is open. -/
def strictOk : Bool → List EventType → Bool
  | _, [] => true
  | false, .In :: r => strictOk true r
  | true, .In :: _ => false
  | true, .Out :: r => strictOk false r
  | false, .Out :: _ => false

theorem recalcScan_ok_iff : ∀ (evs store : List Event) (c : Int) (oi : Option Nat),
    (recalcScan store evs c oi).2 = none ↔ strictOk oi.isSome (evs.map (·.kind)) = true
  | [], store, c, oi => by simp [recalcScan, strictOk]
  | ev :: rest, store, c, oi => by
    cases hk : ev.kind <;> cases oi <;>
      simp [recalcScan, hk, strictOk, recalcScan_ok_iff rest]

theorem recalcScan_err_invalidTime : ∀ (evs store : List Event) (c : Int)
    (oi : Option Nat) (e : AppError),
    (recalcScan store evs c oi).2 = some e → e.isInvalidTime = true
  | [], store, c, oi, e => by simp [recalcScan]
  | ev :: rest, store, c, oi, e => by
    cases hk : ev.kind <;> cases oi <;>
      simp only [recalcScan, hk] <;>
      first
        | (intro h; cases h; rfl)
        | exact recalcScan_err_invalidTime rest _ _ _ e

theorem StrictSeq.ok : ∀ {l : List EventType}, StrictSeq l → strictOk false l = true
  | _, .nil => rfl
  | _, .single => rfl
  | _, .pair _ h => by simpa [strictOk] using h.ok

theorem strictOk_to_seq : ∀ l : List EventType, strictOk false l = true → StrictSeq l
  | [], _ => .nil
  | [.In], _ => .single
  | .In :: .In :: _, h => by simp [strictOk] at h
  | .In :: .Out :: r, h => .pair r (strictOk_to_seq r (by simpa [strictOk] using h))
  | .Out :: _, h => by simp [strictOk] at h

/-- C3: the strict recalculation accepts a date's time-ordered events exactly
when they form closed `In`/`Out` blocks optionally ending in one open `In`
(equivalently: it fails exactly when an `In` arrives while an `In` is open or
an `Out` arrives with none open); every failure is an `InvalidTime`-class
error; a lone `In` is accepted, and a day holding only `Out@17:00` is
rejected with an `InvalidTime` error. -/
theorem c3_strict_recalc :
    (∀ (store : List Event) (day : Nat),
      ((recalc_pairs_for_date store day).2 = none ↔
        StrictSeq ((load_events_by_date store day).map (·.kind))) ∧
      ∀ e, (recalc_pairs_for_date store day).2 = some e → e.isInvalidTime = true) ∧
    (recalc_pairs_for_date
      [{ id := 1, day := 5, time := 540, kind := .In, location := .Office,
         lunch := some 0, pair := 0 }] 5).2 = none ∧
    (recalc_pairs_for_date
      [{ id := 1, day := 5, time := 1020, kind := .Out, location := .Office,
         lunch := some 0, pair := 0 }] 5).2 = some (AppError.invalidTime 5 1020) ∧
    AppError.isInvalidTime (AppError.invalidTime 5 1020) = true := by
  refine ⟨?_, by decide, by decide, rfl⟩
  intro store day
  constructor
  · simp only [recalc_pairs_for_date]
    split
    · rename_i h
      rw [List.isEmpty_iff] at h
      rw [h]
      exact iff_of_true rfl .nil
    · exact (recalcScan_ok_iff _ store 1 none).trans
        ⟨fun h => strictOk_to_seq _ h, fun h => h.ok⟩
  · intro e
    simp only [recalc_pairs_for_date]
    split
    · intro h
      cases h
    · exact recalcScan_err_invalidTime _ store 1 none e

/-! ## Lemmas about the add path -/

theorem updatePair_length (store : List Event) (i : Nat) (p : Int) :
    (updatePair store i p).length = store.length :=
  List.length_map store _

theorem recalcScan_length : ∀ (evs store : List Event) (c : Int) (oi : Option Nat),
    (recalcScan store evs c oi).1.length = store.length
  | [], store, c, oi => rfl
  | ev :: rest, store, c, oi => by
    cases hk : ev.kind <;> cases oi <;>
      simp [recalcScan, hk, recalcScan_length rest, updatePair_length]

theorem recalc_pairs_for_date_length (store : List Event) (day : Nat) :
    (recalc_pairs_for_date store day).1.length = store.length := by
  simp only [recalc_pairs_for_date]
  split
  · rfl
  · exact recalcScan_length _ store 1 none

/-- C1 counterexample store: one committed `In@09:00` on day 7. -/
def c1Store : List Event :=
  [{ id := 1, day := 7, time := 540, kind := .In, location := .Office,
     lunch := some 0, pair := 1 }]

/-- C1: the claim is false — `AddLogic::apply` runs the insert and the strict
recalculation on the same connection with no transaction, so when adding
`In@10:00` to a day already holding an open `In@09:00` the recalculation
fails with `InvalidTime` yet the newly inserted row remains visible: the
store after the failed operation has two rows, not its original one. -/
theorem c1_transactionality_counterexample :
    (addLogic_apply_start c1Store 7 .Office 600 0).2 =
        some (AppError.invalidTime 7 600) ∧
      (addLogic_apply_start c1Store 7 .Office 600 0).1.length = 2 ∧
      c1Store.length = 1 ∧
      (addLogic_apply_start c1Store 7 .Office 600 0).1 ≠ c1Store := by
  refine ⟨by decide, by decide, by decide, by decide⟩

/-- C1 (amended): the add path is not transactional.  For every store and
every start-only add, the store returned by `AddLogic::apply` — error or not —
holds exactly one more row than before: a failure of
`recalc_pairs_for_date` after the insertion never rolls the insert back. -/
theorem c1_transactionality_amended (store : List Event) (day : Nat)
    (position : Location) (start : Nat) (lunch_val : Int) :
    (addLogic_apply_start store day position start lunch_val).1.length =
      store.length + 1 := by
  unfold addLogic_apply_start
  rw [recalc_pairs_for_date_length]
  simp [insert_event]

/-- C10 witness store: four events on day 1. -/
def c10Store : List Event :=
  [{ id := 1, day := 1, time := 500, kind := .In, location := .Office,
     lunch := some 0, pair := 1 },
   { id := 2, day := 1, time := 600, kind := .Out, location := .Office,
     lunch := some 0, pair := 1 },
   { id := 3, day := 1, time := 700, kind := .In, location := .Office,
     lunch := some 0, pair := 2 },
   { id := 4, day := 1, time := 800, kind := .Out, location := .Office,
     lunch := some 0, pair := 2 }]

/-! ## C10: the deletion entry point -/

/-- C10: `DeleteLogic::apply` with pair `p ≥ 1` works purely positionally on
the time-sorted event list of the date: no events gives `NoEventsForDate`;
fewer than `2p - 1` events gives `InvalidPair p`; otherwise the result is the
store minus exactly the `(p-1)`-th 2-chunk — the events at sorted positions
`2p-1` and `2p` (1-based) — irrespective of their kinds, with every surviving
row (pair ids included) untouched, and no recomputation performed. -/
theorem c10_delete_positional (store : List Event) (day p : Nat) (hp : 1 ≤ p) :
    (load_events_by_date store day = [] →
      deleteLogic_apply store day p = .error (AppError.noEventsForDate day)) ∧
    (load_events_by_date store day ≠ [] →
      (load_events_by_date store day).length < 2 * p - 1 →
      deleteLogic_apply store day p = .error (AppError.invalidPair p)) ∧
    (2 * p - 1 ≤ (load_events_by_date store day).length →
      ∃ l, deleteLogic_apply store day p = .ok l ∧ l.Sublist store ∧
        ∀ e, e ∈ l ↔ e ∈ store ∧
          e.id ∉ (((load_events_by_date store day).drop (2 * (p - 1))).take 2).map
            (·.id)) ∧
    ∀ h2 : 2 * p ≤ (load_events_by_date store day).length,
      ((load_events_by_date store day).drop (2 * (p - 1))).take 2 =
        [(load_events_by_date store day).get ⟨2 * p - 2, by omega⟩,
         (load_events_by_date store day).get ⟨2 * p - 1, by omega⟩] := by
  refine ⟨?_, ?_, ?_, ?_⟩
  · intro h
    simp [deleteLogic_apply, h]
  · intro hne hlen
    have hempty : (load_events_by_date store day).isEmpty = false := by
      rw [Bool.eq_false_iff]
      intro h
      exact hne (List.isEmpty_iff.mp h)
    have hchunk : chunk2 (load_events_by_date store day) (p - 1) = none := by
      unfold chunk2
      rw [if_neg]
      omega
    simp [deleteLogic_apply, hempty, hchunk]
  · intro hlen
    have hempty : (load_events_by_date store day).isEmpty = false := by
      rw [Bool.eq_false_iff]
      intro h
      rw [List.isEmpty_iff.mp h] at hlen
      simp at hlen
      omega
    have hchunk : chunk2 (load_events_by_date store day) (p - 1) =
        some (((load_events_by_date store day).drop (2 * (p - 1))).take 2) := by
      unfold chunk2
      rw [if_pos]
      omega
    have hres : deleteLogic_apply store day p =
        .ok (store.filter fun e =>
          ¬ ((((load_events_by_date store day).drop (2 * (p - 1))).take 2).map
              (·.id)).contains e.id) := by
      simp [deleteLogic_apply, hempty, hchunk]
    refine ⟨_, hres, List.filter_sublist store, ?_⟩
    intro e
    simp [List.mem_filter]
  · intro h2
    have d1 : (load_events_by_date store day).drop (2 * (p - 1)) =
        (load_events_by_date store day).get ⟨2 * p - 2, by omega⟩ ::
          (load_events_by_date store day).drop (2 * p - 1) := by
      have := List.drop_eq_getElem_cons (l := load_events_by_date store day)
        (n := 2 * p - 2) (by omega)
      simpa [List.get_eq_getElem, show 2 * (p - 1) = 2 * p - 2 by omega,
        show 2 * p - 2 + 1 = 2 * p - 1 by omega] using this
    have d2 : (load_events_by_date store day).drop (2 * p - 1) =
        (load_events_by_date store day).get ⟨2 * p - 1, by omega⟩ ::
          (load_events_by_date store day).drop (2 * p) := by
      have := List.drop_eq_getElem_cons (l := load_events_by_date store day)
        (n := 2 * p - 1) (by omega)
      simpa [List.get_eq_getElem, show 2 * p - 1 + 1 = 2 * p by omega] using this
    rw [d1, d2]
    rfl

/-- C10 witness: a four-event day with `p = 2` deletes sorted positions 3-4. -/
theorem c10_delete_positional_witness :
    2 * 2 - 1 ≤ (load_events_by_date c10Store 1).length ∧
      ∃ l, deleteLogic_apply c10Store 1 2 = .ok l ∧ l.Sublist c10Store ∧
        ∀ e, e ∈ l ↔ e ∈ c10Store ∧
          e.id ∉ (((load_events_by_date c10Store 1).drop 2).take 2).map (·.id) :=
  ⟨by decide, by
    have h := (c10_delete_positional c10Store 1 2 (by decide)).2.2.1 (by decide)
    simpa using h⟩

/-! ## C5: expected and surplus -/

/-- C5: whenever the timeline's first pair records zero lunch and its `In`
time is at or before the configured lunch-window end, the expected minutes are
the parsed work quota plus the configured minimum lunch, and the surplus is
the total worked minutes minus that expected value. -/
theorem c5_expected_surplus (tl : Timeline) (cfg : Config) (fp : Pair)
    (rest : List Pair) (ws we : Nat)
    (hpairs : tl.pairs = fp :: rest)
    (hlunch : fp.lunch_minutes = 0)
    (hwin : parse_lunch_window cfg.lunch_window = some (ws, we))
    (hin : fp.in_event.time ≤ we) :
    calculate_expected tl cfg =
      parse_work_duration_to_minutes cfg.min_work_duration +
        cfg.min_duration_lunch_break ∧
    calculate_surplus tl (calculate_expected tl cfg) =
      tl.total_worked_minutes -
        (parse_work_duration_to_minutes cfg.min_work_duration +
          cfg.min_duration_lunch_break) := by
  have hexp : calculate_expected tl cfg =
      parse_work_duration_to_minutes cfg.min_work_duration +
        cfg.min_duration_lunch_break := by
    unfold calculate_expected
    rw [hpairs]
    simp [hlunch, hwin, hin]
  exact ⟨hexp, by rw [calculate_surplus, hexp]⟩

/-- C5 witness configuration: quota `"8h"`, window `12:30-14:00`, min 30. -/
def cfg8 : Config :=
  { min_work_duration := "8h".data, lunch_window := "12:30-14:00".data,
    min_duration_lunch_break := 30 }

/-- C5 witness events: `In@09:00` (no lunch), `Out@17:00`. -/
def c5Events : List Event :=
  [{ id := 1, day := 0, time := 540, kind := .In, location := .Office,
     lunch := some 0, pair := 0 },
   { id := 2, day := 0, time := 1020, kind := .Out, location := .Office,
     lunch := some 0, pair := 0 }]

/-- The single closed pair `build_timeline` derives from `c5Events`. -/
def c5Pair : Pair :=
  { in_event := { id := 1, day := 0, time := 540, kind := .In,
                  location := .Office, lunch := some 0, pair := 0 },
    out_event := some { id := 2, day := 0, time := 1020, kind := .Out,
                        location := .Office, lunch := some 0, pair := 0 },
    duration_minutes := 480, lunch_minutes := 0, position := .Office }

/-- C5 witness: the concrete scenario of the claim — worked 480, inferred
lunch 30, expected 510, surplus −30. -/
theorem c5_expected_surplus_witness :
    (build_timeline c5Events).total_worked_minutes = 480 ∧
    calculate_expected (build_timeline c5Events) cfg8 = 510 ∧
    calculate_surplus (build_timeline c5Events)
      (calculate_expected (build_timeline c5Events) cfg8) = -30 := by
  have h := c5_expected_surplus (build_timeline c5Events) cfg8 c5Pair [] 750 840
    (by decide) (by decide) (by decide) (by decide)
  refine ⟨by decide, ?_, ?_⟩
  · rw [h.1]
    decide
  · rw [h.2]
    decide

/-! ## C6: insertion-order independence of `assign_pairs` -/

/-- `dtLE` both ways forces equal (date, time) keys. -/
theorem dtLE_antisymm_key {a b : LEvent} (h1 : dtLE a b) (h2 : dtLE b a) :
    a.date = b.date ∧ a.time = b.time := by
  rcases h1 with h1 | ⟨e1, t1⟩ <;> rcases h2 with h2 | ⟨e2, t2⟩ <;>
    constructor <;> omega

/-- Two sorted permutations of each other with pairwise-distinct
(date, time) keys coincide. -/
theorem sorted_perm_eq_of_nodup_keys :
    ∀ {l₁ l₂ : List LEvent}, List.Perm l₁ l₂ → l₁.Sorted dtLE →
      l₂.Sorted dtLE → (l₁.map fun e => (e.date, e.time)).Nodup → l₁ = l₂
  | [], l₂, hp, _, _, _ => (hp.symm.eq_nil).symm
  | a :: t₁, [], hp, _, _, _ => by simpa using hp.eq_nil
  | a :: t₁, b :: t₂, hp, hs₁, hs₂, hnd => by
    have hab : dtLE a b := by
      have hbmem : b ∈ a :: t₁ := hp.symm.mem_iff.mp (List.mem_cons_self b t₂)
      rcases List.mem_cons.mp hbmem with rfl | hbt
      · exact Or.inr ⟨rfl, Nat.le_refl _⟩
      · exact List.rel_of_sorted_cons hs₁ b hbt
    have hba : dtLE b a := by
      have hamem : a ∈ b :: t₂ := hp.mem_iff.mp (List.mem_cons_self a t₁)
      rcases List.mem_cons.mp hamem with rfl | hat
      · exact Or.inr ⟨rfl, Nat.le_refl _⟩
      · exact List.rel_of_sorted_cons hs₂ a hat
    have hkey := dtLE_antisymm_key hab hba
    have heq : a = b := by
      by_contra hne
      have hbt : b ∈ t₁ := by
        have hbmem : b ∈ a :: t₁ := hp.symm.mem_iff.mp (List.mem_cons_self b t₂)
        rcases List.mem_cons.mp hbmem with rfl | hbt
        · exact absurd rfl hne
        · exact hbt
      have : (a.date, a.time) ∈ t₁.map fun e => (e.date, e.time) := by
        refine List.mem_map.mpr ⟨b, hbt, ?_⟩
        simp [hkey.1, hkey.2]
      exact (List.nodup_cons.mp hnd).1 this
    subst heq
    have htail : t₁ = t₂ :=
      sorted_perm_eq_of_nodup_keys hp.cons_inv (List.sorted_cons.mp hs₁).2
        (List.sorted_cons.mp hs₂).2 (List.nodup_cons.mp hnd).2
    rw [htail]

/-- C6 counterexample, first insertion order: `In` then `Out`, same time. -/
def c6E1 : List LEvent :=
  [{ id := 1, date := 0, time := 540, kind := "in", position := "O", lunch_break := 0 },
   { id := 2, date := 0, time := 540, kind := "out", position := "O", lunch_break := 0 }]

/-- C6 counterexample, shuffled insertion order of the same event set. -/
def c6E2 : List LEvent :=
  [{ id := 2, date := 0, time := 540, kind := "out", position := "O", lunch_break := 0 },
   { id := 1, date := 0, time := 540, kind := "in", position := "O", lunch_break := 0 }]

/-- C6: the claim is false "including when two events share the same time":
the same two events at 09:00, presented in the two insertion orders, give
event 1 the annotation (pair 1, matched) in one order and (pair 2, unmatched)
in the other — the stable re-sort by time preserves insertion order on ties,
so pairing is not a pure function of (time, kind). -/
theorem c6_determinism_counterexample :
    List.Perm c6E2 c6E1 ∧
    annotOf (assign_pairs c6E1) 1 = some (1, false) ∧
    annotOf (assign_pairs c6E2) 1 = some (2, true) ∧
    annotOf (assign_pairs c6E1) 1 ≠ annotOf (assign_pairs c6E2) 1 := by
  refine ⟨?_, by decide, by decide, by decide⟩
  exact List.Perm.swap _ _ _

/-- C6 (amended): `assign_pairs` is insertion-order independent whenever the
(date, time) keys are pairwise distinct: any permutation of such an event set
produces the identical annotated list after the internal stable re-sort. -/
theorem c6_determinism_amended (l₁ l₂ : List LEvent)
    (hperm : List.Perm l₁ l₂)
    (hkeys : (l₁.map fun e => (e.date, e.time)).Nodup) :
    assign_pairs l₁ = assign_pairs l₂ := by
  unfold assign_pairs sortLEvents
  congr 1
  refine sorted_perm_eq_of_nodup_keys
    ((List.perm_insertionSort dtLE l₁).trans
      (hperm.trans (List.perm_insertionSort dtLE l₂).symm))
    (List.sorted_insertionSort dtLE l₁)
    (List.sorted_insertionSort dtLE l₂) ?_
  exact ((List.perm_insertionSort dtLE l₁).map _).nodup_iff.mpr hkeys

/-- C6 witness: a two-event set with distinct times, shuffled. -/
theorem c6_determinism_witness :
    assign_pairs
      [{ id := 1, date := 0, time := 540, kind := "in", position := "O",
         lunch_break := 0 },
       { id := 2, date := 0, time := 600, kind := "out", position := "O",
         lunch_break := 0 }] =
    assign_pairs
      [{ id := 2, date := 0, time := 600, kind := "out", position := "O",
         lunch_break := 0 },
       { id := 1, date := 0, time := 540, kind := "in", position := "O",
         lunch_break := 0 }] :=
  c6_determinism_amended _ _ (List.Perm.swap _ _ _) (by decide)

/-! ## C7: lemmas about the aggregate helpers -/

theorem listMax_cons (a : Nat) (l : List Nat) :
    listMax (a :: l) =
      some (match listMax l with | none => a | some m => max a m) := rfl

theorem listMin_cons (a : Nat) (l : List Nat) :
    listMin (a :: l) =
      some (match listMin l with | none => a | some m => min a m) := rfl

theorem maxByTime_cons (a : LEvent) (l : List LEvent) :
    maxByTime (a :: l) =
      some (match maxByTime l with
            | none => a
            | some m => if m.time < a.time then a else m) := rfl

theorem listMax_ne_nil_spec :
    ∀ l : List Nat, l ≠ [] → ∃ x, listMax l = some x ∧ x ∈ l ∧ ∀ u ∈ l, u ≤ x
  | [], h => absurd rfl h
  | a :: t, _ => by
    by_cases ht : t = []
    · subst ht
      exact ⟨a, by simp [listMax], by simp, by simp⟩
    · obtain ⟨x, hx, hmem, hle⟩ := listMax_ne_nil_spec t ht
      refine ⟨max a x, ?_, ?_, ?_⟩
      · rw [listMax_cons, hx]
      · rcases Nat.le_total a x with h | h
        · rw [Nat.max_eq_right h]
          exact List.mem_cons_of_mem a hmem
        · rw [Nat.max_eq_left h]
          exact List.mem_cons_self a t
      · intro u hu
        rcases List.mem_cons.mp hu with rfl | hut
        · exact Nat.le_max_left _ _
        · exact Nat.le_trans (hle u hut) (Nat.le_max_right _ _)

theorem listMin_ne_nil_spec :
    ∀ l : List Nat, l ≠ [] → ∃ x, listMin l = some x ∧ x ∈ l ∧ ∀ u ∈ l, x ≤ u
  | [], h => absurd rfl h
  | a :: t, _ => by
    by_cases ht : t = []
    · subst ht
      exact ⟨a, by simp [listMin], by simp, by simp⟩
    · obtain ⟨x, hx, hmem, hle⟩ := listMin_ne_nil_spec t ht
      refine ⟨min a x, ?_, ?_, ?_⟩
      · rw [listMin_cons, hx]
      · rcases Nat.le_total a x with h | h
        · rw [Nat.min_eq_left h]
          exact List.mem_cons_self a t
        · rw [Nat.min_eq_right h]
          exact List.mem_cons_of_mem a hmem
      · intro u hu
        rcases List.mem_cons.mp hu with rfl | hut
        · exact Nat.min_le_left _ _
        · exact Nat.le_trans (Nat.min_le_right _ _) (hle u hut)

theorem maxByTime_ne_nil_spec :
    ∀ l : List LEvent, l ≠ [] →
      ∃ e, maxByTime l = some e ∧ e ∈ l ∧ ∀ u ∈ l, u.time ≤ e.time
  | [], h => absurd rfl h
  | a :: t, _ => by
    by_cases ht : t = []
    · subst ht
      exact ⟨a, by simp [maxByTime], by simp, by simp⟩
    · obtain ⟨x, hx, hmem, hle⟩ := maxByTime_ne_nil_spec t ht
      by_cases hcmp : x.time < a.time
      · refine ⟨a, ?_, List.mem_cons_self a t, ?_⟩
        · rw [maxByTime_cons, hx]
          simp [hcmp]
        · intro u hu
          rcases List.mem_cons.mp hu with rfl | hut
          · exact Nat.le_refl _
          · exact Nat.le_trans (hle u hut) (Nat.le_of_lt hcmp)
      · refine ⟨x, ?_, List.mem_cons_of_mem a hmem, ?_⟩
        · rw [maxByTime_cons, hx]
          simp [hcmp]
        · intro u hu
          rcases List.mem_cons.mp hu with rfl | hut
          · exact Nat.le_of_not_lt hcmp
          · exact hle u hut

/-- `endStep` on an existing row: sets `end_time` when the date has a max
time, leaves every other field alone. -/
theorem endStep_some (w : WorkSession) (d : Nat) (R : List LEvent) :
    ∃ w', endStep (some w) d R = some w' ∧
      w'.end_time = (match listMax (R.map (·.time)) with
                     | some mx => some mx
                     | none => w.end_time) ∧
      w'.start_time = w.start_time ∧ w'.lunch_break = w.lunch_break ∧
      w'.position = w.position ∧ w'.date = w.date := by
  cases hmx : listMax (R.map (·.time)) with
  | none => exact ⟨w, by simp [endStep, hmx], by simp [hmx], rfl, rfl, rfl, rfl⟩
  | some mx =>
    exact ⟨{ w with end_time := some mx }, by simp [endStep, hmx, upsertEnd],
      by simp [hmx], rfl, rfl, rfl, rfl⟩

/-- `startStep` on an existing row: sets `start_time` from the earliest `in`
(falling back to the earliest event), leaves every other field alone. -/
theorem startStep_some (w : WorkSession) (d : Nat) (R : List LEvent) :
    ∃ w', startStep (some w) d R = some w' ∧
      w'.start_time =
        (match (match listMin ((R.filter fun e => e.kind = "in").map (·.time)) with
                | some mn => some mn
                | none => listMin (R.map (·.time))) with
         | some mn => some mn
         | none => w.start_time) ∧
      w'.end_time = w.end_time ∧ w'.lunch_break = w.lunch_break ∧
      w'.position = w.position ∧ w'.date = w.date := by
  cases hso : listMin ((R.filter fun e => e.kind = "in").map (·.time)) with
  | some mn =>
    exact ⟨{ w with start_time := some mn }, by simp [startStep, hso, upsertStart],
      by simp [hso], rfl, rfl, rfl, rfl⟩
  | none =>
    cases hmn : listMin (R.map (·.time)) with
    | some mn =>
      exact ⟨{ w with start_time := some mn },
        by simp [startStep, hso, hmn, upsertStart], by simp [hso, hmn], rfl, rfl,
        rfl, rfl⟩
    | none => exact ⟨w, by simp [startStep, hso, hmn], by simp [hso, hmn], rfl,
        rfl, rfl, rfl⟩

/-- `lunchStep` on an existing row: overwrites `lunch_break` from the latest
surviving `out`, leaves every other field alone. -/
theorem lunchStep_some (w : WorkSession) (d : Nat) (R : List LEvent) :
    ∃ w', lunchStep (some w) d R = some w' ∧
      w'.lunch_break = (match maxByTime (R.filter fun e => e.kind = "out") with
                        | some o => o.lunch_break
                        | none => w.lunch_break) ∧
      w'.end_time = w.end_time ∧ w'.start_time = w.start_time ∧
      w'.position = w.position ∧ w'.date = w.date := by
  cases hmb : maxByTime (R.filter fun e => e.kind = "out") with
  | none => exact ⟨w, by simp [lunchStep, hmb], by simp [hmb], rfl, rfl, rfl, rfl⟩
  | some o =>
    exact ⟨{ w with lunch_break := o.lunch_break },
      by simp [lunchStep, hmb, upsertLunch], by simp [hmb], rfl, rfl, rfl, rfl⟩

/-- `posStep` on an existing row: overwrites `position` exactly when one
distinct position survives, leaves every other field alone. -/
theorem posStep_some (w : WorkSession) (d : Nat) (R : List LEvent) :
    ∃ w', posStep (some w) d R = some w' ∧
      w'.position = (match (R.map (·.position)).dedup with
                     | [p] => p
                     | _ => w.position) ∧
      w'.end_time = w.end_time ∧ w'.start_time = w.start_time ∧
      w'.lunch_break = w.lunch_break ∧ w'.date = w.date := by
  rcases hdd : (R.map (·.position)).dedup with _ | ⟨x, rest⟩
  · exact ⟨w, by simp [posStep, hdd], by simp [hdd], rfl, rfl, rfl, rfl⟩
  · cases rest with
    | nil =>
      exact ⟨{ w with position := x }, by simp [posStep, hdd, upsertPos],
        by simp [hdd], rfl, rfl, rfl, rfl⟩
    | cons y rest2 =>
      exact ⟨w, by simp [posStep, hdd], by simp [hdd], rfl, rfl, rfl, rfl⟩

/-- Shape of the recomputed session row when one already exists: each field is
overwritten by its aggregate when that aggregate exists, kept otherwise. -/
theorem recompute_session_fields_some (w : WorkSession) (d : Nat)
    (R : List LEvent) :
    ∃ w', recompute_session_fields (some w) d R = some w' ∧
      w'.date = w.date ∧
      w'.end_time = (match listMax (R.map (·.time)) with
                     | some mx => some mx
                     | none => w.end_time) ∧
      w'.start_time =
        (match (match listMin ((R.filter fun e => e.kind = "in").map (·.time)) with
                | some mn => some mn
                | none => listMin (R.map (·.time))) with
         | some mn => some mn
         | none => w.start_time) ∧
      w'.lunch_break = (match maxByTime (R.filter fun e => e.kind = "out") with
                        | some o => o.lunch_break
                        | none => w.lunch_break) ∧
      w'.position = (match (R.map (·.position)).dedup with
                     | [p] => p
                     | _ => w.position) := by
  obtain ⟨w1, h1, h1end, h1start, h1lunch, h1pos, h1date⟩ := endStep_some w d R
  obtain ⟨w2, h2, h2start, h2end, h2lunch, h2pos, h2date⟩ := startStep_some w1 d R
  obtain ⟨w3, h3, h3lunch, h3end, h3start, h3pos, h3date⟩ := lunchStep_some w2 d R
  obtain ⟨w4, h4, h4pos, h4end, h4start, h4lunch, h4date⟩ := posStep_some w3 d R
  refine ⟨w4, ?_, ?_, ?_, ?_, ?_, ?_⟩
  · unfold recompute_session_fields
    rw [h1, h2, h3, h4]
  · rw [h4date, h3date, h2date, h1date]
  · rw [h4end, h3end, h2end, h1end]
  · rw [h4start, h3start, h2start, h1start]
  · rw [h4lunch, h3lunch, h2lunch, h1lunch]
  · rw [h4pos, h3pos, h2pos, h1pos]

/-- C7 witness events: two `R`-position pairs on day 9. -/
def c7wEvents : List LEvent :=
  [{ id := 1, date := 9, time := 480, kind := "in", position := "R", lunch_break := 0 },
   { id := 2, date := 9, time := 540, kind := "out", position := "R", lunch_break := 0 },
   { id := 3, date := 9, time := 600, kind := "in", position := "O", lunch_break := 0 },
   { id := 4, date := 9, time := 660, kind := "out", position := "O", lunch_break := 15 }]

/-- C7 witness aggregate row for day 9. -/
def c7wSess : WorkSession :=
  { date := 9, position := "M", start_time := some 480, end_time := some 660,
    lunch_break := 15 }

/-- C7 counterexample events: day 3 holds `Out@08:00`, `In@09:00`,
`Out@17:00`; the `Out@17:00` (id 3) is deleted. -/
def c7Events : List LEvent :=
  [{ id := 1, date := 3, time := 480, kind := "out", position := "R", lunch_break := 0 },
   { id := 2, date := 3, time := 540, kind := "in", position := "R", lunch_break := 0 },
   { id := 3, date := 3, time := 1020, kind := "out", position := "R", lunch_break := 30 }]

/-- C7 counterexample: the pre-existing aggregate row for day 3. -/
def c7Sess : WorkSession :=
  { date := 3, position := "R", start_time := some 300, end_time := some 900,
    lunch_break := 10 }

/-- C7: the claim that "start becomes the minimum surviving event time" is
false: after deleting id 3, the survivors are `Out@08:00` and `In@09:00`
(minimum surviving time 480), but the recomputed `start_time` is 540 — the
code prefers the earliest surviving `in` and only falls back to the earliest
event when no `in` survives. -/
theorem c7_recompute_counterexample :
    listMin ((survivingEvents c7Events [3] 3).map (·.time)) = some 480 ∧
    (delete_events_by_ids_and_recompute_sessions c7Events (some c7Sess) [3] 3).2 =
      some { date := 3, position := "R", start_time := some 540,
             end_time := some 540, lunch_break := 0 } ∧
    (540 : Nat) ≠ 480 := by
  refine ⟨by decide, by decide, by decide⟩

/-- C7 (amended): with a pre-existing aggregate row, deletion recomputes the
day's denormalized fields from the survivors: if none survive the row is
deleted; otherwise `end_time` is the maximum surviving time, `start_time` the
minimum surviving `In` time (the minimum overall time only when no `In`
survives), `lunch_break` comes from the latest surviving `Out` (kept when no
`Out` survives), and `position` is set to the survivors' common position only
when they share exactly one distinct value — a mixed set of survivors leaves
the previous position untouched. -/
theorem c7_delete_recompute_amended (events : List LEvent) (w : WorkSession)
    (ids : List Nat) (d : Nat) (hids : ids ≠ []) :
    (survivingEvents events ids d = [] →
      delete_events_by_ids_and_recompute_sessions events (some w) ids d =
        (deleteByIds events ids, none)) ∧
    (survivingEvents events ids d ≠ [] →
      ∃ w', delete_events_by_ids_and_recompute_sessions events (some w) ids d =
          (deleteByIds events ids, some w') ∧
        (∃ te, w'.end_time = some te ∧
          te ∈ (survivingEvents events ids d).map (·.time) ∧
          ∀ u ∈ (survivingEvents events ids d).map (·.time), u ≤ te) ∧
        ((∃ e ∈ survivingEvents events ids d, e.kind = "in") →
          ∃ ts, w'.start_time = some ts ∧
            ts ∈ ((survivingEvents events ids d).filter fun e =>
                    e.kind = "in").map (·.time) ∧
            ∀ u ∈ ((survivingEvents events ids d).filter fun e =>
                    e.kind = "in").map (·.time), ts ≤ u) ∧
        ((∀ e ∈ survivingEvents events ids d, e.kind ≠ "in") →
          ∃ ts, w'.start_time = some ts ∧
            ts ∈ (survivingEvents events ids d).map (·.time) ∧
            ∀ u ∈ (survivingEvents events ids d).map (·.time), ts ≤ u) ∧
        ((∃ e ∈ survivingEvents events ids d, e.kind = "out") →
          ∃ o, o ∈ survivingEvents events ids d ∧ o.kind = "out" ∧
            w'.lunch_break = o.lunch_break ∧
            ∀ o' ∈ survivingEvents events ids d, o'.kind = "out" →
              o'.time ≤ o.time) ∧
        ((∀ e ∈ survivingEvents events ids d, e.kind ≠ "out") →
          w'.lunch_break = w.lunch_break) ∧
        (∀ pp, ((survivingEvents events ids d).map (·.position)).dedup = [pp] →
          w'.position = pp) ∧
        (2 ≤ ((survivingEvents events ids d).map (·.position)).dedup.length →
          w'.position = w.position)) := by
  have hidsE : ids.isEmpty = false := by
    rw [Bool.eq_false_iff]
    intro h
    exact hids (List.isEmpty_iff.mp h)
  constructor
  · intro hR
    simp [delete_events_by_ids_and_recompute_sessions, hidsE, hR]
  · intro hR
    have hRE : (survivingEvents events ids d).isEmpty = false := by
      rw [Bool.eq_false_iff]
      intro h
      exact hR (List.isEmpty_iff.mp h)
    have mapne : (survivingEvents events ids d).map (·.time) ≠ [] :=
      fun h => hR (List.map_eq_nil_iff.mp h)
    obtain ⟨w', hw', hdate, hend, hstart, hlunch, hpos⟩ :=
      recompute_session_fields_some w d (survivingEvents events ids d)
    obtain ⟨mx, hmx, hmxmem, hmxle⟩ :=
      listMax_ne_nil_spec ((survivingEvents events ids d).map (·.time)) mapne
    refine ⟨w', ?_, ?_, ?_, ?_, ?_, ?_, ?_, ?_⟩
    · have hred : delete_events_by_ids_and_recompute_sessions events (some w) ids d =
          (deleteByIds events ids,
            recompute_session_fields (some w) d (survivingEvents events ids d)) := by
        simp [delete_events_by_ids_and_recompute_sessions, hidsE, hRE]
      rw [hred, hw']
    · rw [hmx] at hend
      exact ⟨mx, hend, hmxmem, hmxle⟩
    · rintro ⟨e, he, hk⟩
      have hememf : e ∈ (survivingEvents events ids d).filter fun e =>
          e.kind = "in" := List.mem_filter.mpr ⟨he, by simp [hk]⟩
      have hfne : ((survivingEvents events ids d).filter fun e =>
          e.kind = "in").map (·.time) ≠ [] :=
        fun h => (List.ne_nil_of_mem hememf) (List.map_eq_nil_iff.mp h)
      obtain ⟨ts, hts, htsmem, htsle⟩ := listMin_ne_nil_spec _ hfne
      simp only [hts] at hstart
      exact ⟨ts, hstart, htsmem, htsle⟩
    · intro hnone
      have hfil : (survivingEvents events ids d).filter
          (fun e => e.kind = "in") = [] := by
        rw [List.filter_eq_nil_iff]
        intro a ha
        simpa using hnone a ha
      obtain ⟨ts, hts, htsmem, htsle⟩ := listMin_ne_nil_spec _ mapne
      simp only [hfil, List.map_nil, listMin, hts] at hstart
      exact ⟨ts, hstart, htsmem, htsle⟩
    · rintro ⟨e, he, hk⟩
      have hememf : e ∈ (survivingEvents events ids d).filter fun e =>
          e.kind = "out" := List.mem_filter.mpr ⟨he, by simp [hk]⟩
      obtain ⟨o, ho, homem, hole⟩ :=
        maxByTime_ne_nil_spec _ (List.ne_nil_of_mem hememf)
      simp only [ho] at hlunch
      have homem' := List.mem_filter.mp homem
      refine ⟨o, homem'.1, by simpa using homem'.2, hlunch, ?_⟩
      intro o' ho' hk'
      exact hole o' (List.mem_filter.mpr ⟨ho', by simp [hk']⟩)
    · intro hnone
      have hfil : (survivingEvents events ids d).filter
          (fun e => e.kind = "out") = [] := by
        rw [List.filter_eq_nil_iff]
        intro a ha
        simpa using hnone a ha
      simp only [hfil, maxByTime] at hlunch
      exact hlunch
    · intro pp hdd
      simp only [hdd] at hpos
      exact hpos
    · intro hlen
      rcases hdd : ((survivingEvents events ids d).map (·.position)).dedup with
        _ | ⟨x, _ | ⟨y, rest⟩⟩
      · rw [hdd] at hlen
        simp at hlen
      · rw [hdd] at hlen
        simp at hlen
      · simp only [hdd] at hpos
        exact hpos

/-- C7 witness: three same-position pairs; deleting the middle pair leaves
survivors sharing one position, so every aggregate is recomputed. -/
theorem c7_delete_recompute_witness :
    [3, 4] ≠ ([] : List Nat) ∧
      (survivingEvents c7wEvents [3, 4] 9 ≠ [] →
        ∃ w', delete_events_by_ids_and_recompute_sessions c7wEvents
            (some c7wSess) [3, 4] 9 = (deleteByIds c7wEvents [3, 4], some w') ∧
          (∃ te, w'.end_time = some te ∧
            te ∈ (survivingEvents c7wEvents [3, 4] 9).map (·.time) ∧
            ∀ u ∈ (survivingEvents c7wEvents [3, 4] 9).map (·.time), u ≤ te) ∧
          ((∃ e ∈ survivingEvents c7wEvents [3, 4] 9, e.kind = "in") →
            ∃ ts, w'.start_time = some ts ∧
              ts ∈ ((survivingEvents c7wEvents [3, 4] 9).filter fun e =>
                      e.kind = "in").map (·.time) ∧
              ∀ u ∈ ((survivingEvents c7wEvents [3, 4] 9).filter fun e =>
                      e.kind = "in").map (·.time), ts ≤ u) ∧
          ((∀ e ∈ survivingEvents c7wEvents [3, 4] 9, e.kind ≠ "in") →
            ∃ ts, w'.start_time = some ts ∧
              ts ∈ (survivingEvents c7wEvents [3, 4] 9).map (·.time) ∧
              ∀ u ∈ (survivingEvents c7wEvents [3, 4] 9).map (·.time), ts ≤ u) ∧
          ((∃ e ∈ survivingEvents c7wEvents [3, 4] 9, e.kind = "out") →
            ∃ o, o ∈ survivingEvents c7wEvents [3, 4] 9 ∧ o.kind = "out" ∧
              w'.lunch_break = o.lunch_break ∧
              ∀ o' ∈ survivingEvents c7wEvents [3, 4] 9, o'.kind = "out" →
                o'.time ≤ o.time) ∧
          ((∀ e ∈ survivingEvents c7wEvents [3, 4] 9, e.kind ≠ "out") →
            w'.lunch_break = c7wSess.lunch_break) ∧
          (∀ pp, ((survivingEvents c7wEvents [3, 4] 9).map (·.position)).dedup =
              [pp] → w'.position = pp) ∧
          (2 ≤ ((survivingEvents c7wEvents [3, 4] 9).map
              (·.position)).dedup.length → w'.position = c7wSess.position)) :=
  ⟨by decide,
    (c7_delete_recompute_amended c7wEvents c7wSess [3, 4] 9 (by decide)).2⟩

/-! ## C9: Timeline Builder pairing vs lenient FIFO pairing

The two pairing algorithms live on the two event models; `toLEvent` is the
row-level correspondence (`models/event.rs` fields to the legacy `db::Event`
columns). -/

/-- `Location::code()`. -/
def Location.code : Location → String
  | .Office => "O"
  | .Remote => "R"
  | .Holiday => "H"
  | .OnSite => "C"
  | .Mixed => "M"

/-- `EventType::to_db_str()`. -/
def EventType.to_db_str : EventType → String
  | .In => "in"
  | .Out => "out"

/-- The legacy row corresponding to a typed event. -/
def toLEvent (e : Event) : LEvent :=
  { id := e.id, date := e.day, time := e.time, kind := e.kind.to_db_str,
    position := e.location.code, lunch_break := lunchOf e }

/-- Day sequences that strictly alternate `In`/`Out` starting with `In`,
optionally ending with one open `In`. -/
inductive Alternating : List Event → Prop where
  | nil : Alternating []
  | single (e : Event) : e.kind = EventType.In → Alternating [e]
  | pair (i o : Event) (rest : List Event) : i.kind = EventType.In →
      o.kind = EventType.Out → Alternating rest → Alternating (i :: o :: rest)

/-- The annotation the lenient pairing produces on an alternating day, with
the pair counter starting at `c`. -/
def altAnnot (c : Nat) : List Event → List EventWithPair
  | [] => []
  | [e] => [{ ev := toLEvent e, pair := c + 1, unmatched := true }]
  | i :: o :: rest =>
    { ev := toLEvent i, pair := c + 1, unmatched := false } ::
    { ev := toLEvent o, pair := c + 1, unmatched := false } :: altAnnot (c + 1) rest

/-- The In/Out id groupings of a timeline's pairs. -/
def timelineGroups (tl : Timeline) : List (Nat × Option Nat) :=
  tl.pairs.map fun p => (p.in_event.id, p.out_event.map (·.id))

/-- The id of the `out` event annotated with pair id `p`, if any. -/
def findOutId (res : List EventWithPair) (p : Nat) : Option Nat :=
  (res.find? fun y => y.ev.kind = "out" ∧ y.pair = p).map (·.ev.id)

/-- The In/Out id groupings of a lenient annotation: each `in` event with the
id of the `out` sharing its pair id. -/
def lenientGroups (res : List EventWithPair) : List (Nat × Option Nat) :=
  res.filterMap fun x =>
    if x.ev.kind = "in" then some (x.ev.id, findOutId res x.pair) else none

/-- The groupings both pairings produce on an alternating day. -/
def altGroups : List Event → List (Nat × Option Nat)
  | [] => []
  | [e] => [(e.id, none)]
  | i :: o :: rest => (i.id, some o.id) :: altGroups rest

theorem pairAt_append_singleton (res : List EventWithPair) (x : EventWithPair) :
    pairAt (res ++ [x]) res.length = x.pair := by
  simp [pairAt, List.getElem?_concat_length]

theorem closeAt_append_singleton :
    ∀ (res : List EventWithPair) (x : EventWithPair),
      closeAt (res ++ [x]) res.length = res ++ [{ x with unmatched := false }]
  | [], x => rfl
  | a :: t, x => by
    show a :: closeAt (t ++ [x]) t.length = a :: (t ++ [{ x with unmatched := false }])
    rw [closeAt_append_singleton t x]

/-- One loop iteration on an `in` event of the cursor's date. -/
theorem cepGo_step_in (res : List EventWithPair) (d : Nat) (q : List Nat)
    (c : Nat) (ev : LEvent) (rest : List LEvent) (hk : ev.kind = "in")
    (hd : ev.date = d) :
    cepGo res (some d) q c (ev :: rest) =
      cepGo (res ++ [{ ev := ev, pair := c + 1, unmatched := true }]) (some d)
        (q ++ [res.length]) (c + 1) rest := by
  subst hd
  simp [cepGo, hk]

/-- One loop iteration on an `out` event of the cursor's date with a
nonempty open queue. -/
theorem cepGo_step_out_pop (res : List EventWithPair) (d : Nat) (i0 : Nat)
    (q0 : List Nat) (c : Nat) (ev : LEvent) (rest : List LEvent)
    (hk : ev.kind = "out") (hd : ev.date = d) :
    cepGo res (some d) (i0 :: q0) c (ev :: rest) =
      cepGo (closeAt res i0 ++
          [{ ev := ev, pair := pairAt res i0, unmatched := false }]) (some d)
        q0 c rest := by
  subst hd
  simp [cepGo, hk]

/-- On an alternating single-day slice with the cursor already on that date
and no open queue, the lenient loop appends exactly the alternating
annotation. -/
theorem cepGo_alternating :
    ∀ {evs : List Event}, Alternating evs → ∀ (d : Nat),
      (∀ e ∈ evs, e.day = d) → ∀ (res : List EventWithPair) (c : Nat),
      cepGo res (some d) [] c (evs.map toLEvent) = res ++ altAnnot c evs := by
  intro evs h
  induction h with
  | nil => intro d hd res c; simp [cepGo, altAnnot]
  | single e hk =>
    intro d hd res c
    have hde : e.day = d := hd e (List.mem_cons_self e [])
    rw [List.map_cons, List.map_nil,
      cepGo_step_in res d [] c (toLEvent e) []
        (by simp [toLEvent, EventType.to_db_str, hk]) (by simp [toLEvent, hde])]
    simp [cepGo, altAnnot]
  | pair i o rest hi ho hrest ih =>
    intro d hd res c
    have hdi : i.day = d := hd i (by simp)
    have hdo : o.day = d := hd o (by simp)
    rw [List.map_cons, List.map_cons,
      cepGo_step_in res d [] c (toLEvent i) _
        (by simp [toLEvent, EventType.to_db_str, hi]) (by simp [toLEvent, hdi]),
      List.nil_append,
      cepGo_step_out_pop _ d res.length [] (c + 1) (toLEvent o) _
        (by simp [toLEvent, EventType.to_db_str, ho]) (by simp [toLEvent, hdo]),
      closeAt_append_singleton, pairAt_append_singleton,
      List.append_assoc]
    rw [ih d (fun e he => hd e (by simp [he])) _ (c + 1)]
    simp [altAnnot]

/-- The very first iteration: an unset cursor resets queue and counter, but
they are already empty/zero, so it equals starting with the cursor set. -/
theorem cepGo_start (ev : LEvent) (rest : List LEvent) :
    cepGo [] none [] 0 (ev :: rest) = cepGo [] (some ev.date) [] 0 (ev :: rest) := by
  simp [cepGo]

/-- `compute_event_pairs` on an alternating single-day slice. -/
theorem cep_alternating : ∀ {evs : List Event}, Alternating evs → ∀ (d : Nat),
    (∀ e ∈ evs, e.day = d) →
    compute_event_pairs (evs.map toLEvent) = altAnnot 0 evs := by
  intro evs h d hd
  cases evs with
  | nil => rfl
  | cons e rest =>
    have hde : (toLEvent e).date = d := by
      simp [toLEvent, hd e (by simp)]
    unfold compute_event_pairs
    rw [List.map_cons, cepGo_start, hde, ← List.map_cons]
    simpa using cepGo_alternating h d hd [] 0

/-- Every annotation issued with counter base `c` has pair id above `c`. -/
theorem altAnnot_pair_lb : ∀ (evs : List Event) (c : Nat),
    ∀ x ∈ altAnnot c evs, c + 1 ≤ x.pair
  | [], c, x, hx => by simp [altAnnot] at hx
  | [e], c, x, hx => by
    simp only [altAnnot, List.mem_singleton] at hx
    subst hx
    exact Nat.le_refl _
  | i :: o :: rest, c, x, hx => by
    rcases List.mem_cons.mp hx with rfl | hx'
    · exact Nat.le_refl _
    · rcases List.mem_cons.mp hx' with rfl | hx2
      · exact Nat.le_refl _
      · exact Nat.le_trans (Nat.le_succ _) (altAnnot_pair_lb rest (c + 1) x hx2)

/-- `findOutId` skips a head that is not the matching `out`. -/
theorem findOutId_cons (y : EventWithPair) (l : List EventWithPair) (p : Nat)
    (h : ¬ (y.ev.kind = "out" ∧ y.pair = p)) :
    findOutId (y :: l) p = findOutId l p := by
  unfold findOutId
  rw [List.find?_cons]
  split
  · rename_i hdec
    exact absurd (of_decide_eq_true hdec) h
  · rfl

/-- The groupings of a lenient annotation of an alternating day. -/
theorem lenientGroups_altAnnot : ∀ {evs : List Event}, Alternating evs →
    ∀ c, lenientGroups (altAnnot c evs) = altGroups evs := by
  intro evs h
  induction h with
  | nil => intro c; rfl
  | single e hk =>
    intro c
    simp [lenientGroups, altAnnot, altGroups, findOutId, toLEvent,
      EventType.to_db_str, hk]
  | pair i o rest hi ho hrest ih =>
    intro c
    have hki : (toLEvent i).kind = "in" := by
      simp [toLEvent, EventType.to_db_str, hi]
    have hko : (toLEvent o).kind = "out" := by
      simp [toLEvent, EventType.to_db_str, ho]
    unfold lenientGroups
    rw [show altAnnot c (i :: o :: rest) =
      { ev := toLEvent i, pair := c + 1, unmatched := false } ::
      { ev := toLEvent o, pair := c + 1, unmatched := false } ::
      altAnnot (c + 1) rest from rfl]
    rw [List.filterMap_cons, List.filterMap_cons]
    have hfo : findOutId
        ({ ev := toLEvent i, pair := c + 1, unmatched := false } ::
         { ev := toLEvent o, pair := c + 1, unmatched := false } ::
         altAnnot (c + 1) rest) (c + 1) = some o.id := by
      unfold findOutId
      rw [List.find?_cons]
      split
      · rename_i hdec
        have := of_decide_eq_true hdec
        rw [hki] at this
        simp at this
      · rw [List.find?_cons]
        split
        · simp [toLEvent]
        · rename_i hdec
          rw [decide_eq_false_iff_not] at hdec
          exact absurd ⟨hko, rfl⟩ hdec
    simp only [hki, hko, if_pos, hfo]
    have hcong : (altAnnot (c + 1) rest).filterMap (fun x =>
        if x.ev.kind = "in" then
          some (x.ev.id, findOutId
            ({ ev := toLEvent i, pair := c + 1, unmatched := false } ::
             { ev := toLEvent o, pair := c + 1, unmatched := false } ::
             altAnnot (c + 1) rest) x.pair)
        else none) =
        (altAnnot (c + 1) rest).filterMap (fun x =>
          if x.ev.kind = "in" then
            some (x.ev.id, findOutId (altAnnot (c + 1) rest) x.pair)
          else none) := by
      refine List.filterMap_congr ?_
      intro x hx
      have hlb := altAnnot_pair_lb rest (c + 1) x hx
      have hne : x.pair ≠ c + 1 := by omega
      rw [findOutId_cons _ _ _ (by simp [hki]),
        findOutId_cons _ _ _ (by intro hc; exact hne hc.2.symm)]
    rw [hcong]
    have := ih (c + 1)
    unfold lenientGroups at this
    rw [this]
    simp [altGroups, toLEvent]

/-- The groupings of the Timeline Builder's local pairing on an alternating,
already-sorted day. -/
theorem timelineGroups_buildPairs : ∀ {evs : List Event}, Alternating evs →
    (buildPairs evs).map (fun p => (p.in_event.id, p.out_event.map (·.id))) =
      altGroups evs := by
  intro evs h
  induction h with
  | nil => rfl
  | single e hk => simp [buildPairs, hk, altGroups]
  | pair i o rest hi ho hrest ih => simp [buildPairs, hi, ho, altGroups, ih]

/-- C9 witness events: `In@09:00`, `Out@10:00`, trailing open `In@11:40`. -/
def c9wEvents : List Event :=
  [{ id := 1, day := 0, time := 540, kind := .In, location := .Office,
     lunch := some 0, pair := 0 },
   { id := 2, day := 0, time := 600, kind := .Out, location := .Office,
     lunch := some 0, pair := 0 },
   { id := 3, day := 0, time := 700, kind := .In, location := .Office,
     lunch := some 0, pair := 0 }]

/-- C9 divergence input: `In@09:00` (id 1), `In@10:00` (id 2),
`Out@11:00` (id 3) on one day. -/
def c9Events : List Event :=
  [{ id := 1, day := 0, time := 540, kind := .In, location := .Office,
     lunch := some 0, pair := 0 },
   { id := 2, day := 0, time := 600, kind := .In, location := .Office,
     lunch := some 0, pair := 0 },
   { id := 3, day := 0, time := 660, kind := .Out, location := .Office,
     lunch := some 0, pair := 0 }]

/-- C9: on a chronologically sorted, strictly alternating single-day slice
the Timeline Builder and the lenient FIFO pairing produce identical In/Out
groupings; on stacked Ins they diverge: for `In@09:00, In@10:00, Out@11:00`
the builder closes `(In@10:00, Out@11:00)` leaving `In@09:00` open, while the
lenient FIFO assignment pairs `Out@11:00` with `In@09:00` leaving `In@10:00`
open — opposite Ins. -/
theorem c9_timeline_vs_lenient :
    (∀ (evs : List Event) (d : Nat), Alternating evs → (∀ e ∈ evs, e.day = d) →
      evs.Sorted tsLE →
      timelineGroups (build_timeline evs) =
        lenientGroups (compute_event_pairs (evs.map toLEvent))) ∧
    timelineGroups (build_timeline c9Events) = [(1, none), (2, some 3)] ∧
    lenientGroups (compute_event_pairs (c9Events.map toLEvent)) =
      [(1, some 3), (2, none)] := by
  refine ⟨?_, by decide, by decide⟩
  intro evs d h hd hs
  rw [cep_alternating h d hd, lenientGroups_altAnnot h 0]
  unfold build_timeline
  split
  · rename_i hemp
    rw [List.isEmpty_iff] at hemp
    subst hemp
    rfl
  · show (buildPairs (sortEvents evs)).map _ = _
    rw [show sortEvents evs = evs from hs.insertionSort_eq]
    exact timelineGroups_buildPairs h

/-- C9 witness: a sorted alternating day `In@09:00, Out@10:00, In@11:40`. -/
theorem c9_timeline_vs_lenient_witness :
    timelineGroups (build_timeline c9wEvents) =
      lenientGroups (compute_event_pairs (c9wEvents.map toLEvent)) :=
  c9_timeline_vs_lenient.1 c9wEvents 0
    (Alternating.pair _ _ _ rfl rfl (Alternating.single _ rfl))
    (by decide) (by decide)

/-! ## Remaining witnesses -/

/-- C1 witness: the amended no-rollback theorem at the concrete store. -/
theorem c1_transactionality_witness :
    (addLogic_apply_start c1Store 7 Location.Office 600 0).1.length =
      c1Store.length + 1 :=
  c1_transactionality_amended c1Store 7 Location.Office 600 0

/-- C2 witness: total annotation at a concrete mixed slice. -/
theorem c2_lenient_fifo_witness :
    (compute_event_pairs
      [{ id := 7, date := 2, time := 500, kind := "out", position := "R",
         lunch_break := 5 },
       { id := 8, date := 2, time := 560, kind := "in", position := "R",
         lunch_break := 0 }]).map (·.ev) =
      [{ id := 7, date := 2, time := 500, kind := "out", position := "R",
         lunch_break := 5 },
       { id := 8, date := 2, time := 560, kind := "in", position := "R",
         lunch_break := 0 }] :=
  c2_lenient_fifo.2.2 _

/-- C3 witness store: one closed pair on day 5. -/
def c3wStore : List Event :=
  [{ id := 1, day := 5, time := 540, kind := .In, location := .Office,
     lunch := some 0, pair := 0 },
   { id := 2, day := 5, time := 1020, kind := .Out, location := .Office,
     lunch := some 0, pair := 0 }]

/-- C3 witness: the characterization applied to a concrete closed day. -/
theorem c3_strict_recalc_witness :
    (recalc_pairs_for_date c3wStore 5).2 = none :=
  (c3_strict_recalc.1 c3wStore 5).1.mpr (StrictSeq.pair [] StrictSeq.nil)

end RTL
